import Mathlib

/-!
Verification of the whale-curve analyzer core (src/whale_curve_analyzer.py).

The pipeline is embedded shallowly:
* dataframe cells are exact rationals (`ℚ`); an empty (NaN) cell of an input
  column is `Option.none`;
* percentage columns, which the source computes by float division without a
  zero guard, take values in `PFloat`: exact rationals extended with the IEEE
  non-finite values that numpy/pandas produce on division by zero (float
  rounding is idealized away; the zero produced by summation is unsigned,
  i.e. treated as `+0.0`);
* `pd.merge(sales, cost, on='Product ID', how='left')` is a left join that
  emits one output row per matching cost row (and one zero-filled row when
  there is no match), preserving left order;
* `df.groupby(field)` sorts the group keys ascending (pandas default
  `sort=True`); Python compares strings lexicographically by code point,
  embedded as `strLE`;
* `sort_values(col, ascending=False)` is embedded as a stable descending
  sort: pandas `nargsort` reverses the values, argsorts, and reverses the
  resulting indexer back, so ties keep their input order whenever the
  underlying numpy argsort is stable (always for the stable kinds, and for
  the default quicksort on the small partitions where numpy falls back to
  insertion sort).
-/

namespace WhaleCurve

/-- Lexicographic comparison of code-point sequences, the order Python uses
on strings and hence the order pandas sorts string group keys by. -/
def charListLE : List Char → List Char → Bool
  | [], _ => true
  | _ :: _, [] => false
  | c :: cs, d :: ds =>
    if c.val.toNat < d.val.toNat then true
    else if d.val.toNat < c.val.toNat then false
    else charListLE cs ds

/-- Python string `<=`, lexicographic on code points. -/
def strLE (a b : String) : Bool :=
  charListLE a.data b.data

/-- One row of the uploaded sales table.  The five required columns are
present (`load_sales_data` validated that); an individual `Net Sales $`
cell may still be empty, which pandas reads as NaN, modeled as `none`. -/
structure SalesRow where
  customerId : String
  productId : String
  netSales : Option ℚ
  salesperson : String
  region : String
deriving DecidableEq

/-- One row of the uploaded cost table, with all five cost columns present
(the shape of the documented sample format).  Empty cells are `none`. -/
structure CostRow where
  productId : String
  standardTotalCost : Option ℚ
  materialCost : Option ℚ
  laborCost : Option ℚ
  overheadCost : Option ℚ
  serviceCost : Option ℚ
deriving DecidableEq

/-- One row of the merged frame produced by `merge_data`, after
`merged.fillna(0)` and the `Unit Cost` / `Gross Margin $` assignments. -/
structure EnrichedRow where
  customerId : String
  productId : String
  salesperson : String
  region : String
  netSales : ℚ
  standardTotalCost : ℚ
  materialCost : ℚ
  laborCost : ℚ
  overheadCost : ℚ
  serviceCost : ℚ
  unitCost : ℚ
  grossMargin : ℚ
deriving DecidableEq

/-- `merged.fillna(0)`: an empty cell becomes `0`. -/
def fillna (o : Option ℚ) : ℚ :=
  o.getD 0

/-- `np.where(merged['Standard Total Cost'] > 0, merged['Standard Total Cost'],
merged['Material Cost'] + merged['Labor Cost'] + merged['Overhead Cost'] +
merged['Service Cost'])`, one cell at a time (inputs already zero-filled). -/
def resolveUnitCost (stc mat lab ovh svc : ℚ) : ℚ :=
  if stc > 0 then stc else mat + lab + ovh + svc

/-- One output row of the left join: a sales row paired with the cost row it
matched (`none` when its `Product ID` has no cost record), zero-filled, with
`Unit Cost` and `Gross Margin $ = Net Sales $ - Unit Cost` appended. -/
def enrichRow (s : SalesRow) (oc : Option CostRow) : EnrichedRow :=
  let ns := fillna s.netSales
  let stc := fillna (oc.bind CostRow.standardTotalCost)
  let mat := fillna (oc.bind CostRow.materialCost)
  let lab := fillna (oc.bind CostRow.laborCost)
  let ovh := fillna (oc.bind CostRow.overheadCost)
  let svc := fillna (oc.bind CostRow.serviceCost)
  let uc := resolveUnitCost stc mat lab ovh svc
  { customerId := s.customerId
    productId := s.productId
    salesperson := s.salesperson
    region := s.region
    netSales := ns
    standardTotalCost := stc
    materialCost := mat
    laborCost := lab
    overheadCost := ovh
    serviceCost := svc
    unitCost := uc
    grossMargin := ns - uc }

/-- The cost rows a given sales row joins with: every cost row with the same
`Product ID`, or a single all-NaN row when there is none (`how='left'`). -/
def matchesFor (cost : List CostRow) (pid : String) : List (Option CostRow) :=
  match cost.filter (fun c => decide (c.productId = pid)) with
  | [] => [none]
  | ms => ms.map some

/-- `merge_data(sales, cost)` (src lines 111-120): left join on
`Product ID`, `fillna(0)`, then the `Unit Cost` and `Gross Margin $`
columns. -/
def merge_data (sales : List SalesRow) (cost : List CostRow) : List EnrichedRow :=
  sales.flatMap (fun s => (matchesFor cost s.productId).map (enrichRow s))

/-- Required sales columns (src line 80). -/
def sales_required_cols : List String :=
  ["Customer ID", "Product ID", "Net Sales $", "Salesperson", "Region"]

/-- Required cost columns (src line 92). -/
def cost_required_cols : List String :=
  ["Product ID"]

/-- The column check in `load_sales_data`:
`all(col in sales.columns for col in required_cols)`. -/
def sales_columns_ok (cols : List String) : Bool :=
  sales_required_cols.all (fun c => cols.contains c)

/-- The column check in `load_cost_data`. -/
def cost_columns_ok (cols : List String) : Bool :=
  cost_required_cols.all (fun c => cols.contains c)

/-- `load_sales_data`: `st.error` and `None` when a required column is
missing, otherwise the parsed rows. -/
def load_sales_data (cols : List String) (rows : List SalesRow) : Option (List SalesRow) :=
  if sales_columns_ok cols then some rows else none

/-- `load_cost_data`: `st.error` and `None` when `Product ID` is missing,
otherwise the parsed rows. -/
def load_cost_data (cols : List String) (rows : List CostRow) : Option (List CostRow) :=
  if cost_columns_ok cols then some rows else none

/-- The driver (src lines 101-175): merging runs only when both loaders
succeeded (`if sales_data is not None and cost_data is not None`). -/
def run_pipeline (salesCols : List String) (salesRows : List SalesRow)
    (costCols : List String) (costRows : List CostRow) : Option (List EnrichedRow) :=
  match load_sales_data salesCols salesRows, load_cost_data costCols costRows with
  | some s, some c => some (merge_data s c)
  | _, _ => none

/-- A float-valued percentage cell as the source's numeric runtime produces
it: an exact rational, or one of the IEEE non-finite values that numpy emits
on division by zero and then propagates silently. -/
inductive PFloat where
  | fin (q : ℚ)
  | posInf
  | negInf
  | nan
deriving DecidableEq

/-- `100 * num / den` in float arithmetic (rounding idealized away): a zero
denominator yields `±inf`, or `nan` when the numerator is zero too. -/
def div100 (num den : ℚ) : PFloat :=
  if den = 0 then
    if 0 < num then .posInf else if num < 0 then .negInf else .nan
  else
    .fin (100 * num / den)

/-- IEEE addition on `PFloat` (used to state the `Σ pctOfSales` property). -/
def PFloat.add : PFloat → PFloat → PFloat
  | .fin a, .fin b => .fin (a + b)
  | .nan, _ => .nan
  | _, .nan => .nan
  | .posInf, .negInf => .nan
  | .negInf, .posInf => .nan
  | .posInf, _ => .posInf
  | _, .posInf => .posInf
  | .negInf, _ => .negInf
  | _, .negInf => .negInf

/-- Sum of a list of float cells. -/
def pfSum (l : List PFloat) : PFloat :=
  l.foldr PFloat.add (.fin 0)

/-- IEEE `<=` on float cells: any comparison involving `nan` is false. -/
def PFloat.ble : PFloat → PFloat → Bool
  | .fin a, .fin b => decide (a ≤ b)
  | .fin _, .posInf => true
  | .negInf, .fin _ => true
  | .negInf, .posInf => true
  | .posInf, .posInf => true
  | .negInf, .negInf => true
  | _, _ => false

/-- Whether a float cell is finite (neither infinite nor `nan`). -/
def PFloat.isFinite : PFloat → Bool
  | .fin _ => true
  | _ => false

/-- One group of the `groupby(group_field).agg(...)` frame: the key and the
two summed columns. -/
structure Group where
  key : String
  netSales : ℚ
  grossMargin : ℚ
deriving DecidableEq

/-- One row of the summary frame `generate_summary` returns. -/
structure SummaryRow where
  groupKey : String
  netSales : ℚ
  grossMargin : ℚ
  pctOfSales : PFloat
  cumulativeSales : ℚ
  cumulativeSalesPct : PFloat
  marginPct : PFloat
  cumulativeMargin : ℚ
  cumulativeProfitPct : PFloat
deriving DecidableEq

/-- `df['Net Sales $'].sum()` (src line 123). -/
def total_net_sales (df : List EnrichedRow) : ℚ :=
  (df.map (·.netSales)).sum

/-- `df.groupby(group_field).agg({'Net Sales $': 'sum', 'Gross Margin $':
'sum'})` (src lines 124-126): pandas partitions the rows by key and, with
the default `sort=True`, lists the groups in ascending key order. -/
def groupTotals (df : List EnrichedRow) (key : EnrichedRow → String) : List Group :=
  ((df.map key).dedup.mergeSort strLE).map (fun k =>
    { key := k
      netSales := ((df.filter (fun r => decide (key r = k))).map (·.netSales)).sum
      grossMargin := ((df.filter (fun r => decide (key r = k))).map (·.grossMargin)).sum })

/-- `.sort_values('Gross Margin $', ascending=False)` (src line 127): a
stable descending sort (see the file comment on pandas `nargsort`). -/
def sortByMarginDesc (gs : List Group) : List Group :=
  gs.mergeSort (fun a b => decide (b.grossMargin ≤ a.grossMargin))

/-- The sorted grouped frame of `generate_summary`, before the derived
columns are appended. -/
def summary_groups (df : List EnrichedRow) (key : EnrichedRow → String) : List Group :=
  sortByMarginDesc (groupTotals df key)

/-- `summary['Gross Margin $'].sum()` (src line 133), the denominator of
`Cumulative Profit %`. -/
def total_gross_margin (df : List EnrichedRow) (key : EnrichedRow → String) : ℚ :=
  ((summary_groups df key).map (·.grossMargin)).sum

/-- The derived columns of src lines 128-133, row by row in sorted order:
`accS`/`accM` are the running `cumsum` values carried in from earlier rows. -/
def buildRows (totalSales totalMargin : ℚ) (accS accM : ℚ) : List Group → List SummaryRow
  | [] => []
  | g :: gs =>
    let cs := accS + g.netSales
    let cm := accM + g.grossMargin
    { groupKey := g.key
      netSales := g.netSales
      grossMargin := g.grossMargin
      pctOfSales := div100 g.netSales totalSales
      cumulativeSales := cs
      cumulativeSalesPct := div100 cs totalSales
      marginPct := div100 g.grossMargin g.netSales
      cumulativeMargin := cm
      cumulativeProfitPct := div100 cm totalMargin } :: buildRows totalSales totalMargin cs cm gs

/-- `generate_summary(df, group_field)` (src lines 122-134). -/
def generate_summary (df : List EnrichedRow) (key : EnrichedRow → String) : List SummaryRow :=
  buildRows (total_net_sales df) (total_gross_margin df key) 0 0 (summary_groups df key)

/-- `summary.sort_values(field, ascending=False)` for an arbitrary numeric
field (the app passes the `Net Sales $` and `Margin %` columns). -/
def sort_values_desc {α : Type} (field : α → ℚ) (l : List α) : List α :=
  l.mergeSort (fun a b => decide (field b ≤ field a))

/-- `summary.sort_values(field, ascending=True)`. -/
def sort_values_asc {α : Type} (field : α → ℚ) (l : List α) : List α :=
  l.mergeSort (fun a b => decide (field a ≤ field b))

/-- `get_top_bottom(summary, field, top_n=20)` (src lines 136-139): the
first `top_n` rows of the descending sort and of the ascending sort. -/
def get_top_bottom {α : Type} (summary : List α) (field : α → ℚ) (top_n : Nat := 20) :
    List α × List α :=
  ((sort_values_desc field summary).take top_n, (sort_values_asc field summary).take top_n)

/-- Running sums starting from `accS`: the `cumsum` column contents (used to
state facts about the cumulative columns of `buildRows`). -/
def cumsum (acc : ℚ) : List ℚ → List ℚ
  | [] => []
  | x :: xs => (acc + x) :: cumsum (acc + x) xs

/-- The spec's end-to-end example: one transaction, C001 buys P101 for
12000. -/
def salesEx : List SalesRow :=
  [⟨"C001", "P101", some 12000, "Sally", "North"⟩]

/-- The spec's end-to-end example cost table: P101 has Standard Total Cost
7200. -/
def costEx : List CostRow :=
  [⟨"P101", some 7200, none, none, none, none⟩]

/-- The merged frame of the end-to-end example. -/
def dfEx : List EnrichedRow :=
  merge_data salesEx costEx

/-- A cost table holding two records for the same product. -/
def costExDup : List CostRow :=
  [⟨"P101", some 7200, none, none, none, none⟩, ⟨"P101", some 100, none, none, none, none⟩]

/-- A cost record with Standard Total Cost 7200 and component costs set. -/
def costStdEx : CostRow :=
  ⟨"P101", some 7200, some 1, some 2, some 3, some 4⟩

/-- A cost record with no Standard Total Cost and components
3000/2000/1500/1000. -/
def costCompEx : CostRow :=
  ⟨"P102", none, some 3000, some 2000, some 1500, some 1000⟩

/-- Two customers whose gross margins are 5 and -3: a loss-making group. -/
def salesNeg : List SalesRow :=
  [⟨"C1", "P1", some 10, "S", "R"⟩, ⟨"C2", "P2", some 10, "S", "R"⟩]

/-- Costs for `salesNeg`: P1 costs 5, P2 costs 13 (above its price). -/
def costNeg : List CostRow :=
  [⟨"P1", some 5, none, none, none, none⟩, ⟨"P2", some 13, none, none, none, none⟩]

/-- Merged frame with group margins 5 and -3. -/
def dfNeg : List EnrichedRow :=
  merge_data salesNeg costNeg

/-- A single transaction with zero net sales. -/
def salesZero : List SalesRow :=
  [⟨"C1", "P1", some 0, "S", "R"⟩]

/-- Cost for `salesZero`: unit cost 5, so the lone gross margin is -5. -/
def costZero : List CostRow :=
  [⟨"P1", some 5, none, none, none, none⟩]

/-- Merged frame whose total net sales is zero. -/
def dfZero : List EnrichedRow :=
  merge_data salesZero costZero

/-- Customers discovered in the order B, A, engineered to have identical
gross margins (10-5 = 5 and 20-15 = 5). -/
def salesTie : List SalesRow :=
  [⟨"B", "P1", some 10, "S", "R"⟩, ⟨"A", "P2", some 20, "S", "R"⟩]

/-- Costs for `salesTie`. -/
def costTie : List CostRow :=
  [⟨"P1", some 5, none, none, none, none⟩, ⟨"P2", some 15, none, none, none, none⟩]

/-- Merged frame with two tied groups discovered in the order B, A. -/
def dfTie : List EnrichedRow :=
  merge_data salesTie costTie

/-- A sales table whose one row has an empty `Net Sales $` cell. -/
def salesMissing : List SalesRow :=
  [⟨"C9", "P9", none, "S", "R"⟩]

/-- Columns of the merged frame: the left join keeps every sales column and
appends each cost column, the join key appearing once. -/
def merged_columns (salesCols costCols : List String) : List String :=
  salesCols ++ costCols.erase "Product ID"

/-- The five columns `merge_data` reads from the merged frame
unconditionally (src lines 114-117); indexing a missing column raises
`KeyError`. -/
def cost_columns_accessed : List String :=
  ["Standard Total Cost", "Material Cost", "Labor Cost", "Overhead Cost", "Service Cost"]

/-- Whether `merge_data` raises a `KeyError` for the given input column
sets: true iff one of the cost columns it indexes is absent from the merged
frame. -/
def merge_raises_keyerror (salesCols costCols : List String) : Bool :=
  cost_columns_accessed.any (fun c => !((merged_columns salesCols costCols).contains c))

theorem enrichRow_grossMargin (s : SalesRow) (oc : Option CostRow) :
    (enrichRow s oc).grossMargin = (enrichRow s oc).netSales - (enrichRow s oc).unitCost := by
  simp [enrichRow]

theorem enrichRow_none_unitCost (s : SalesRow) : (enrichRow s none).unitCost = 0 := by
  simp [enrichRow, fillna, resolveUnitCost]

theorem matchesFor_ne_nil (cost : List CostRow) (pid : String) : matchesFor cost pid ≠ [] := by
  unfold matchesFor
  cases h : cost.filter (fun c => decide (c.productId = pid)) with
  | nil => simp
  | cons c cs => simp

theorem matchesFor_of_nodup (cost : List CostRow) (pid : String)
    (h : (cost.map (·.productId)).Nodup) :
    matchesFor cost pid = [cost.find? (fun c => decide (c.productId = pid))] := by
  induction cost with
  | nil => simp [matchesFor]
  | cons c cs ih =>
    simp only [List.map_cons, List.nodup_cons, List.mem_map] at h
    by_cases hc : c.productId = pid
    · have hforall : ∀ x ∈ cs, ¬(x.productId = pid) := by
        intro x hx hxp
        exact h.1 ⟨x, hx, hxp.trans hc.symm⟩
      have hfil : cs.filter (fun x => decide (x.productId = pid)) = [] := by
        rw [List.filter_eq_nil_iff]
        intro x hx
        simpa using hforall x hx
      unfold matchesFor
      rw [List.filter_cons_of_pos (by simpa using hc), hfil]
      rw [List.find?_cons_of_pos _ (by simpa using hc)]
      simp
    · have h2 := ih h.2
      unfold matchesFor at h2 ⊢
      rw [List.filter_cons_of_neg (by simpa using hc)]
      rw [List.find?_cons_of_neg _ (by simpa using hc)]
      exact h2

theorem merge_data_eq_map (sales : List SalesRow) (cost : List CostRow)
    (h : (cost.map (·.productId)).Nodup) :
    merge_data sales cost =
      sales.map (fun s => enrichRow s (cost.find? (fun c => decide (c.productId = s.productId)))) := by
  unfold merge_data
  induction sales with
  | nil => simp
  | cons s ss ih =>
    rw [List.flatMap_cons, ih, matchesFor_of_nodup cost s.productId h]
    simp

theorem merge_data_mem_grossMargin (sales : List SalesRow) (cost : List CostRow) :
    ∀ r ∈ merge_data sales cost, r.grossMargin = r.netSales - r.unitCost := by
  intro r hr
  unfold merge_data at hr
  rw [List.mem_flatMap] at hr
  obtain ⟨s, _, hr⟩ := hr
  rw [List.mem_map] at hr
  obtain ⟨oc, _, rfl⟩ := hr
  exact enrichRow_grossMargin s oc

/-- C1 (amended): when the cost table has at most one record per
`productId`, the left join returns exactly one enriched row per transaction
row, in order — row `i` of the output is row `i` of the sales table joined
with its unique matching cost record (`none` when there is no match, in
which case the resolved unit cost is zero) — and every output row satisfies
`grossMargin = netSales - unitCost`.  (Without the uniqueness hypothesis the
pandas left merge emits one row per matching cost record, so the row count
can exceed `len(transactions)`; see the counterexample.) -/
theorem merge_preserves_rows (sales : List SalesRow) (cost : List CostRow)
    (h : (cost.map (·.productId)).Nodup) :
    (merge_data sales cost).length = sales.length ∧
    merge_data sales cost =
      sales.map (fun s => enrichRow s (cost.find? (fun c => decide (c.productId = s.productId)))) ∧
    (∀ r ∈ merge_data sales cost, r.grossMargin = r.netSales - r.unitCost) ∧
    (∀ s : SalesRow, (∀ c ∈ cost, c.productId ≠ s.productId) →
      (enrichRow s (cost.find? (fun c => decide (c.productId = s.productId)))).unitCost = 0) := by
  refine ⟨?_, merge_data_eq_map sales cost h, merge_data_mem_grossMargin sales cost, ?_⟩
  · rw [merge_data_eq_map sales cost h, List.length_map]
  · intro s hnone
    have hfind : cost.find? (fun c => decide (c.productId = s.productId)) = none := by
      rw [List.find?_eq_none]
      intro c hc
      simpa using hnone c hc
    rw [hfind]
    exact enrichRow_none_unitCost s

theorem merge_preserves_rows_witness :
    ((costEx.map (·.productId)).Nodup ∧ salesEx.length = 1) ∧
    (merge_data salesEx costEx).length = 1 := by
  refine ⟨⟨by decide, rfl⟩, ?_⟩
  have h := (merge_preserves_rows salesEx costEx (by decide)).1
  rw [h]
  rfl

/-- C1 counterexample: with a duplicated cost record for P101, the left
join of a single-row sales table returns two rows, so
`len(merge(transactions, costs)) == len(transactions)` fails. -/
theorem merge_dup_cost_counterexample :
    salesEx.length = 1 ∧ (merge_data salesEx costExDup).length = 2 := by
  constructor
  · rfl
  · simp [merge_data, salesEx, costExDup, matchesFor, List.filter]

/-- C2: the resolved unit cost is `standardTotalCost` whenever that value is
present and positive, regardless of the component values; otherwise it is
the sum of the four component costs with absent components treated as
zero. -/
theorem cost_resolution (s : SalesRow) (c : CostRow) :
    (∀ v : ℚ, c.standardTotalCost = some v → 0 < v → (enrichRow s (some c)).unitCost = v) ∧
    ((∀ v : ℚ, c.standardTotalCost = some v → v ≤ 0) →
      (enrichRow s (some c)).unitCost =
        fillna c.materialCost + fillna c.laborCost + fillna c.overheadCost + fillna c.serviceCost) := by
  constructor
  · intro v hv hpos
    simp [enrichRow, resolveUnitCost, fillna, hv, hpos]
  · intro hnp
    cases hstc : c.standardTotalCost with
    | none => simp [enrichRow, resolveUnitCost, fillna, hstc]
    | some v =>
      have hv := hnp v hstc
      simp [enrichRow, resolveUnitCost, fillna, hstc, not_lt.mpr hv]

theorem cost_resolution_witness :
    (enrichRow ⟨"C001", "P101", some 12000, "Sally", "North"⟩ (some costStdEx)).unitCost = 7200 ∧
    (enrichRow ⟨"C001", "P102", some 12000, "Sally", "North"⟩ (some costCompEx)).unitCost = 7500 := by
  constructor
  · exact (cost_resolution _ costStdEx).1 7200 rfl (by norm_num)
  · have h := (cost_resolution ⟨"C001", "P102", some 12000, "Sally", "North"⟩ costCompEx).2
      (by intro v hv; simp [costCompEx] at hv)
    rw [h]
    norm_num [costCompEx, fillna]

/-- C4 (code bug): a cost table in the documented "Standard Total Cost
only" shape passes `load_cost_data` validation, yet `merge_data` indexes
all five cost columns unconditionally, so the absent `Material Cost` column
makes `merged['Material Cost']` raise a `KeyError` instead of resolving the
absent components to zero. -/
theorem cost_subset_keyerror :
    cost_columns_ok ["Product ID", "Standard Total Cost"] = true ∧
    merge_raises_keyerror sales_required_cols ["Product ID", "Standard Total Cost"] = true := by
  decide

/-- C9: sales validation fails (the loader returns `None`, which makes the
driver skip merging and aggregation for that upload) exactly when one of
the five required column names is absent, and the cost set is validated
independently against its own required column. -/
theorem schema_validation (salesCols costCols : List String)
    (salesRows : List SalesRow) (costRows : List CostRow) :
    (load_sales_data salesCols salesRows = none ↔ ∃ c ∈ sales_required_cols, c ∉ salesCols) ∧
    (load_cost_data costCols costRows = none ↔ "Product ID" ∉ costCols) ∧
    (load_sales_data salesCols salesRows = none →
      run_pipeline salesCols salesRows costCols costRows = none) ∧
    (load_cost_data costCols costRows = none →
      run_pipeline salesCols salesRows costCols costRows = none) := by
  have hchar : load_sales_data salesCols salesRows = none ↔ sales_columns_ok salesCols = false := by
    unfold load_sales_data
    cases h : sales_columns_ok salesCols <;> simp [h]
  have hchar2 : load_cost_data costCols costRows = none ↔ cost_columns_ok costCols = false := by
    unfold load_cost_data
    cases h : cost_columns_ok costCols <;> simp [h]
  refine ⟨?_, ?_, ?_, ?_⟩
  · rw [hchar]
    simp [sales_columns_ok, List.all_eq_false]
  · rw [hchar2]
    simp [cost_columns_ok, cost_required_cols]
  · intro h
    unfold run_pipeline
    rw [h]
  · intro h
    unfold run_pipeline
    rw [h]
    cases load_sales_data salesCols salesRows <;> rfl

/-- C10: column validation sees only column names, so a transaction row
whose `Net Sales $` cell is empty is not rejected; the left join keeps it,
`fillna(0)` turns the missing value into zero, and the row is processed
with `netSales = 0` and `grossMargin = -unitCost`. -/
theorem missing_net_sales_processed (sales : List SalesRow) (cost : List CostRow)
    (s : SalesRow) (hs : s ∈ sales) (hn : s.netSales = none) :
    ∃ r ∈ merge_data sales cost, r.customerId = s.customerId ∧ r.productId = s.productId ∧
      r.netSales = 0 ∧ r.grossMargin = -r.unitCost := by
  obtain ⟨oc, ms, hms⟩ : ∃ oc ms, matchesFor cost s.productId = oc :: ms := by
    cases h : matchesFor cost s.productId with
    | nil => exact absurd h (matchesFor_ne_nil cost s.productId)
    | cons oc ms => exact ⟨oc, ms, rfl⟩
  refine ⟨enrichRow s oc, ?_, rfl, rfl, ?_, ?_⟩
  · unfold merge_data
    rw [List.mem_flatMap]
    exact ⟨s, hs, List.mem_map_of_mem _ (by rw [hms]; exact List.mem_cons_self oc ms)⟩
  · simp [enrichRow, hn, fillna]
  · simp [enrichRow, hn, fillna]

theorem missing_net_sales_processed_witness :
    (⟨"C9", "P9", none, "S", "R"⟩ : SalesRow) ∈ salesMissing ∧
    ∃ r ∈ merge_data salesMissing costEx, r.customerId = "C9" ∧ r.productId = "P9" ∧
      r.netSales = 0 ∧ r.grossMargin = -r.unitCost := by
  refine ⟨by simp [salesMissing], ?_⟩
  exact missing_net_sales_processed salesMissing costEx ⟨"C9", "P9", none, "S", "R"⟩
    (by simp [salesMissing]) rfl

set_option maxHeartbeats 2000000 in
/-- C3 counterexample: with group margins 5 and -3 the sorted summary's
cumulative profit percentages are 250 then 100, so `cumulativeProfitPct` is
not monotonically non-decreasing (the whale-curve dip below and back to
100). -/
theorem summary_monotone_counterexample :
    ((generate_summary dfNeg (·.customerId)).map (·.cumulativeProfitPct)) =
      [PFloat.fin 250, PFloat.fin 100] ∧
    PFloat.ble (PFloat.fin 250) (PFloat.fin 100) = false := by
  constructor
  · simp [generate_summary, summary_groups, groupTotals, sortByMarginDesc, total_net_sales,
      total_gross_margin, dfNeg, merge_data, salesNeg, costNeg, matchesFor, enrichRow, fillna,
      resolveUnitCost, List.filter_cons, List.filter_nil, List.mergeSort, List.dedup, strLE,
      charListLE, List.merge, UInt32.size]
    norm_num [buildRows, div100, List.mergeSort, List.merge]
  · norm_num [PFloat.ble]

set_option maxHeartbeats 2000000 in
/-- C5 counterexample: a summary whose total net sales is zero has
`pctOfSales = NaN` (0/0) and `marginPct = -inf` (-5/0) — the platform's
non-finite values propagate, no finite sentinel is produced. -/
theorem zero_total_nan_counterexample :
    ((generate_summary dfZero (·.customerId)).map (·.pctOfSales)) = [PFloat.nan] ∧
    ((generate_summary dfZero (·.customerId)).map (·.marginPct)) = [PFloat.negInf] := by
  constructor <;>
  · simp [generate_summary, summary_groups, groupTotals, sortByMarginDesc, total_net_sales,
      total_gross_margin, dfZero, merge_data, salesZero, costZero, matchesFor, enrichRow, fillna,
      resolveUnitCost, List.filter_cons, List.filter_nil, List.mergeSort, List.dedup, strLE,
      charListLE, List.merge, UInt32.size]
    norm_num [buildRows, div100, List.mergeSort, List.merge]

set_option maxHeartbeats 2000000 in
/-- C7 counterexample: the groups are discovered in the order B, A and have
identical gross margins 5, yet the sorted summary lists A before B —
`groupby` reorders groups into ascending key order before the margin sort,
so ties do not retain discovery order. -/
theorem tie_break_counterexample :
    dfTie.map (·.customerId) = ["B", "A"] ∧
    ((generate_summary dfTie (·.customerId)).map (fun r => (r.groupKey, r.grossMargin))) =
      [("A", (5 : ℚ)), ("B", 5)] := by
  constructor
  · simp [dfTie, merge_data, salesTie, costTie, matchesFor, enrichRow, List.filter]
  · simp [generate_summary, summary_groups, groupTotals, sortByMarginDesc, total_net_sales,
      total_gross_margin, dfTie, merge_data, salesTie, costTie, matchesFor, enrichRow, fillna,
      resolveUnitCost, List.filter_cons, List.filter_nil, List.mergeSort, List.dedup, strLE,
      charListLE, List.merge, UInt32.size]
    norm_num [buildRows, div100, List.mergeSort, List.merge]

theorem sum_map_filter_split {α : Type} (v : α → ℚ) (p : α → Bool) (l : List α) :
    ((l.filter p).map v).sum + ((l.filter (fun x => !p x)).map v).sum = (l.map v).sum := by
  induction l with
  | nil => simp
  | cons x xs ih =>
    by_cases hx : p x = true
    · simp [List.filter_cons, hx]
      rw [← ih]
      ring
    · have hx2 : p x = false := by simpa using hx
      simp [List.filter_cons, hx2]
      rw [← ih]
      ring

theorem sum_fibers {α : Type} (v : α → ℚ) (key : α → String) (K : List String) :
    ∀ (l : List α), K.Nodup → (∀ r ∈ l, key r ∈ K) →
      (K.map (fun k => ((l.filter (fun r => decide (key r = k))).map v).sum)).sum =
        (l.map v).sum := by
  induction K with
  | nil =>
    intro l _ hcov
    cases l with
    | nil => simp
    | cons r rs => exact absurd (hcov r (List.mem_cons_self r rs)) (List.not_mem_nil _)
  | cons k K ih =>
    intro l hnd hcov
    have hsplit := sum_map_filter_split v (fun r => decide (key r = k)) l
    have hmap : ∀ k2 ∈ K, ((l.filter (fun r => decide (key r = k2))).map v).sum =
        (((l.filter (fun r => !decide (key r = k))).filter
          (fun r => decide (key r = k2))).map v).sum := by
      intro k2 hk2
      have hne : k2 ≠ k := by
        intro hk
        subst hk
        exact (List.nodup_cons.mp hnd).1 hk2
      have hfe : (l.filter (fun r => !decide (key r = k))).filter
          (fun r => decide (key r = k2)) = l.filter (fun r => decide (key r = k2)) := by
        rw [List.filter_filter]
        apply List.filter_congr
        intro r _
        by_cases hr : key r = k2
        · simp [hr, hne]
        · simp [hr]
      rw [hfe]
    have hstep : (K.map (fun k2 =>
        ((l.filter (fun r => decide (key r = k2))).map v).sum)).sum =
        ((l.filter (fun r => !decide (key r = k))).map v).sum := by
      rw [List.map_congr_left hmap]
      apply ih
      · exact (List.nodup_cons.mp hnd).2
      · intro r hr
        rw [List.mem_filter] at hr
        rcases List.mem_cons.mp (hcov r hr.1) with h | h
        · exfalso
          have := hr.2
          simp [h] at this
        · exact h
    rw [List.map_cons, List.sum_cons, hstep]
    exact hsplit

theorem buildRows_map_key (tS tM : ℚ) (gs : List Group) : ∀ (aS aM : ℚ),
    (buildRows tS tM aS aM gs).map (·.groupKey) = gs.map (·.key) := by
  induction gs with
  | nil => intro aS aM; simp [buildRows]
  | cons g gs ih => intro aS aM; simp [buildRows, ih]

theorem buildRows_map_netSales (tS tM : ℚ) (gs : List Group) : ∀ (aS aM : ℚ),
    (buildRows tS tM aS aM gs).map (·.netSales) = gs.map (·.netSales) := by
  induction gs with
  | nil => intro aS aM; simp [buildRows]
  | cons g gs ih => intro aS aM; simp [buildRows, ih]

theorem buildRows_map_margin (tS tM : ℚ) (gs : List Group) : ∀ (aS aM : ℚ),
    (buildRows tS tM aS aM gs).map (·.grossMargin) = gs.map (·.grossMargin) := by
  induction gs with
  | nil => intro aS aM; simp [buildRows]
  | cons g gs ih => intro aS aM; simp [buildRows, ih]

theorem buildRows_map_pair (tS tM : ℚ) (gs : List Group) : ∀ (aS aM : ℚ),
    (buildRows tS tM aS aM gs).map (fun r => (r.groupKey, r.grossMargin)) =
      gs.map (fun g => (g.key, g.grossMargin)) := by
  induction gs with
  | nil => intro aS aM; simp [buildRows]
  | cons g gs ih => intro aS aM; simp [buildRows, ih]

theorem buildRows_map_pct (tS tM : ℚ) (gs : List Group) : ∀ (aS aM : ℚ),
    (buildRows tS tM aS aM gs).map (·.pctOfSales) =
      gs.map (fun g => div100 g.netSales tS) := by
  induction gs with
  | nil => intro aS aM; simp [buildRows]
  | cons g gs ih => intro aS aM; simp [buildRows, ih]

theorem buildRows_map_cumSalesPct (tS tM : ℚ) (gs : List Group) : ∀ (aS aM : ℚ),
    (buildRows tS tM aS aM gs).map (·.cumulativeSalesPct) =
      (cumsum aS (gs.map (·.netSales))).map (fun c => div100 c tS) := by
  induction gs with
  | nil => intro aS aM; simp [buildRows, cumsum]
  | cons g gs ih => intro aS aM; simp [buildRows, cumsum, ih]

theorem buildRows_map_cumProfitPct (tS tM : ℚ) (gs : List Group) : ∀ (aS aM : ℚ),
    (buildRows tS tM aS aM gs).map (·.cumulativeProfitPct) =
      (cumsum aM (gs.map (·.grossMargin))).map (fun c => div100 c tM) := by
  induction gs with
  | nil => intro aS aM; simp [buildRows, cumsum]
  | cons g gs ih => intro aS aM; simp [buildRows, cumsum, ih]

theorem buildRows_mem (tS tM : ℚ) (gs : List Group) : ∀ (aS aM : ℚ),
    ∀ r ∈ buildRows tS tM aS aM gs,
      r.pctOfSales = div100 r.netSales tS ∧
      r.marginPct = div100 r.grossMargin r.netSales ∧
      r.cumulativeSalesPct = div100 r.cumulativeSales tS ∧
      r.cumulativeProfitPct = div100 r.cumulativeMargin tM := by
  induction gs with
  | nil => intro aS aM r hr; simp [buildRows] at hr
  | cons g gs ih =>
    intro aS aM r hr
    simp only [buildRows, List.mem_cons] at hr
    rcases hr with hr | hr
    · subst hr
      exact ⟨rfl, rfl, rfl, rfl⟩
    · exact ih (aS + g.netSales) (aM + g.grossMargin) r hr

theorem cumsum_getLast (xs : List ℚ) : ∀ (acc : ℚ), xs ≠ [] →
    (cumsum acc xs).getLast? = some (acc + xs.sum) := by
  induction xs with
  | nil => intro acc h; exact absurd rfl h
  | cons x xs ih =>
    intro acc _
    cases xs with
    | nil => simp [cumsum]
    | cons y ys =>
      have h2 := ih (acc + x) (by simp)
      simp only [cumsum, List.getLast?_cons_cons] at h2 ⊢
      rw [h2]
      simp only [List.sum_cons]
      congr 1
      ring

theorem cumsum_chain (xs : List ℚ) (h : ∀ x ∈ xs, 0 ≤ x) : ∀ (acc : ℚ),
    List.Chain' (· ≤ ·) (cumsum acc xs) := by
  induction xs with
  | nil => intro acc; simp [cumsum]
  | cons x xs ih =>
    intro acc
    have hx : ∀ y ∈ xs, 0 ≤ y := fun y hy => h y (List.mem_cons_of_mem x hy)
    have hc := ih hx (acc + x)
    simp only [cumsum]
    apply List.Chain'.cons' hc
    intro y hy
    cases xs with
    | nil => simp [cumsum] at hy
    | cons z zs =>
      simp only [cumsum, List.head?_cons, Option.mem_def, Option.some.injEq] at hy
      have hz : 0 ≤ z := hx z (List.mem_cons_self z zs)
      subst hy
      linarith

theorem pfSum_fin {α : Type} (f : α → ℚ) (l : List α) :
    pfSum (l.map (fun x => PFloat.fin (f x))) = PFloat.fin ((l.map f).sum) := by
  induction l with
  | nil => simp [pfSum]
  | cons x xs ih =>
    simp only [List.map_cons, pfSum, List.foldr_cons] at ih ⊢
    rw [ih]
    simp [PFloat.add]

theorem div100_zero_den_not_finite (n : ℚ) : (div100 n 0).isFinite = false := by
  simp only [div100, if_pos rfl]
  split_ifs <;> simp [PFloat.isFinite]

theorem div100_ble_mono {a b t : ℚ} (ht : 0 < t) (hab : a ≤ b) :
    PFloat.ble (div100 a t) (div100 b t) = true := by
  have ht2 : t ≠ 0 := ne_of_gt ht
  simp only [div100, ht2, if_false, PFloat.ble, decide_eq_true_eq]
  rw [div_le_div_iff_of_pos_right ht]
  linarith

theorem sum_map_mul_div {α : Type} (f : α → ℚ) (t : ℚ) (l : List α) :
    (l.map (fun x => 100 * f x / t)).sum = 100 * (l.map f).sum / t := by
  induction l with
  | nil => simp
  | cons x xs ih =>
    simp only [List.map_cons, List.sum_cons, ih]
    ring

theorem pairwise_transfer {α β γ : Type} {l1 : List α} {l2 : List β} (f : α → γ) (g : β → γ)
    (h : l1.map f = l2.map g) (R : γ → γ → Prop)
    (h2 : l2.Pairwise (fun x y => R (g x) (g y))) :
    l1.Pairwise (fun x y => R (f x) (f y)) := by
  have h3 : (l2.map g).Pairwise R := (List.pairwise_map).mpr h2
  rw [← h] at h3
  exact (List.pairwise_map).mp h3

theorem sortByMarginDesc_perm (gs : List Group) : (sortByMarginDesc gs).Perm gs :=
  List.mergeSort_perm gs _

theorem sortByMarginDesc_sorted (gs : List Group) :
    (sortByMarginDesc gs).Pairwise (fun a b => b.grossMargin ≤ a.grossMargin) := by
  have h := @List.sorted_mergeSort Group
    (fun a b : Group => decide (b.grossMargin ≤ a.grossMargin))
    (fun a b c hab hbc => by
      simp only [decide_eq_true_eq] at hab hbc ⊢
      linarith)
    (fun a b => by
      simp only [Bool.or_eq_true, decide_eq_true_eq]
      exact le_total _ _)
    gs
  exact h.imp (fun h2 => of_decide_eq_true h2)

theorem groupTotals_netSales_sum (df : List EnrichedRow) (key : EnrichedRow → String) :
    ((groupTotals df key).map (·.netSales)).sum = total_net_sales df := by
  unfold groupTotals total_net_sales
  rw [List.map_map]
  simp only [Function.comp_def]
  apply sum_fibers (·.netSales) key
  · exact ((df.map key).dedup.mergeSort_perm strLE).nodup_iff.mpr (List.nodup_dedup _)
  · intro r hr
    exact ((df.map key).dedup.mergeSort_perm strLE).mem_iff.mpr
      (List.mem_dedup.mpr (List.mem_map_of_mem key hr))

theorem groupTotals_margin_sum (df : List EnrichedRow) (key : EnrichedRow → String) :
    ((groupTotals df key).map (·.grossMargin)).sum = (df.map (·.grossMargin)).sum := by
  unfold groupTotals
  rw [List.map_map]
  simp only [Function.comp_def]
  apply sum_fibers (·.grossMargin) key
  · exact ((df.map key).dedup.mergeSort_perm strLE).nodup_iff.mpr (List.nodup_dedup _)
  · intro r hr
    exact ((df.map key).dedup.mergeSort_perm strLE).mem_iff.mpr
      (List.mem_dedup.mpr (List.mem_map_of_mem key hr))

theorem summary_groups_netSales_sum (df : List EnrichedRow) (key : EnrichedRow → String) :
    ((summary_groups df key).map (·.netSales)).sum = total_net_sales df := by
  unfold summary_groups
  rw [((sortByMarginDesc_perm (groupTotals df key)).map (·.netSales)).sum_eq]
  exact groupTotals_netSales_sum df key

theorem summary_groups_ne_nil (df : List EnrichedRow) (key : EnrichedRow → String)
    (h : df ≠ []) : summary_groups df key ≠ [] := by
  intro hnil
  unfold summary_groups at hnil
  have hgt : groupTotals df key = [] := by
    have hp := sortByMarginDesc_perm (groupTotals df key)
    rw [hnil] at hp
    have hlen := hp.length_eq
    rw [List.length_nil] at hlen
    exact List.length_eq_zero.mp hlen.symm
  cases df with
  | nil => exact h rfl
  | cons r rs =>
    unfold groupTotals at hgt
    rw [List.map_eq_nil_iff] at hgt
    have hmem : key r ∈ (((r :: rs).map key).dedup.mergeSort strLE) :=
      ((((r :: rs).map key).dedup.mergeSort_perm strLE)).mem_iff.mpr
        (List.mem_dedup.mpr (List.mem_map_of_mem key (List.mem_cons_self r rs)))
    rw [hgt] at hmem
    exact absurd hmem (List.not_mem_nil _)

theorem total_net_sales_ne_zero_df_ne_nil (df : List EnrichedRow)
    (h : total_net_sales df ≠ 0) : df ≠ [] := by
  intro hnil
  subst hnil
  exact h (by simp [total_net_sales])

/-- C3 (amended): summary rows are ordered by descending `grossMargin`, and
when the respective total is nonzero the final row's `cumulativeSalesPct`
(resp. `cumulativeProfitPct`) equals exactly 100.  The cumulative
percentage columns are monotonically non-decreasing only under the
additional assumption that every summary row's `netSales` (resp.
`grossMargin`) is non-negative: a negative-margin group makes the cumulative
profit column overshoot 100 and come back down (see the counterexample), so
the unconditional monotonicity part of the claim fails on the code. -/
theorem summary_sorted_cumulative (df : List EnrichedRow) (key : EnrichedRow → String) :
    (generate_summary df key).Pairwise (fun a b => b.grossMargin ≤ a.grossMargin) ∧
    (total_net_sales df ≠ 0 →
      ((generate_summary df key).map (·.cumulativeSalesPct)).getLast? =
        some (PFloat.fin 100)) ∧
    (total_gross_margin df key ≠ 0 →
      ((generate_summary df key).map (·.cumulativeProfitPct)).getLast? =
        some (PFloat.fin 100)) ∧
    (0 < total_net_sales df → (∀ r ∈ generate_summary df key, 0 ≤ r.netSales) →
      List.Chain' (fun a b => PFloat.ble a b = true)
        ((generate_summary df key).map (·.cumulativeSalesPct))) ∧
    (0 < total_gross_margin df key →
      (∀ r ∈ generate_summary df key, 0 ≤ r.grossMargin) →
      List.Chain' (fun a b => PFloat.ble a b = true)
        ((generate_summary df key).map (·.cumulativeProfitPct))) := by
  have hdiv : ∀ t : ℚ, t ≠ 0 → div100 t t = PFloat.fin 100 := by
    intro t ht
    unfold div100
    rw [if_neg ht, mul_div_assoc, div_self ht, mul_one]
  refine ⟨?_, ?_, ?_, ?_, ?_⟩
  · unfold generate_summary
    exact pairwise_transfer (fun r : SummaryRow => r.grossMargin)
      (fun g : Group => g.grossMargin)
      (buildRows_map_margin (total_net_sales df) (total_gross_margin df key)
        (summary_groups df key) 0 0)
      (fun x y : ℚ => y ≤ x)
      (sortByMarginDesc_sorted (groupTotals df key))
  · intro h
    have hgs : summary_groups df key ≠ [] := by
      intro hnil
      apply h
      rw [← summary_groups_netSales_sum df key, hnil]
      simp
    unfold generate_summary
    rw [buildRows_map_cumSalesPct, List.getLast?_map,
      cumsum_getLast _ 0 (by simpa using hgs), Option.map_some']
    rw [zero_add, summary_groups_netSales_sum df key, hdiv _ h]
  · intro h
    have hgs : summary_groups df key ≠ [] := by
      intro hnil
      apply h
      unfold total_gross_margin
      rw [hnil]
      simp
    unfold generate_summary
    rw [buildRows_map_cumProfitPct, List.getLast?_map,
      cumsum_getLast _ 0 (by simpa using hgs), Option.map_some']
    rw [zero_add]
    exact congrArg some (hdiv _ h)
  · intro hpos hnn
    have hnn2 : ∀ x ∈ (summary_groups df key).map (·.netSales), 0 ≤ x := by
      intro x hx
      rw [← buildRows_map_netSales (total_net_sales df) (total_gross_margin df key) _ 0 0]
        at hx
      rw [List.mem_map] at hx
      obtain ⟨r, hr, rfl⟩ := hx
      exact hnn r hr
    unfold generate_summary
    rw [buildRows_map_cumSalesPct, List.chain'_map]
    exact (cumsum_chain _ hnn2 0).imp (fun a b hab => div100_ble_mono hpos hab)
  · intro hpos hnn
    have hnn2 : ∀ x ∈ (summary_groups df key).map (·.grossMargin), 0 ≤ x := by
      intro x hx
      rw [← buildRows_map_margin (total_net_sales df) (total_gross_margin df key) _ 0 0]
        at hx
      rw [List.mem_map] at hx
      obtain ⟨r, hr, rfl⟩ := hx
      exact hnn r hr
    unfold generate_summary
    rw [buildRows_map_cumProfitPct, List.chain'_map]
    exact (cumsum_chain _ hnn2 0).imp (fun a b hab => div100_ble_mono hpos hab)

theorem summary_sorted_cumulative_witness :
    total_net_sales dfEx ≠ 0 ∧
    ((generate_summary dfEx (·.customerId)).map (·.cumulativeSalesPct)).getLast? =
      some (PFloat.fin 100) := by
  have htS : total_net_sales dfEx = 12000 := by
    simp [total_net_sales, dfEx, merge_data, salesEx, costEx, matchesFor, enrichRow, fillna,
      resolveUnitCost, List.filter]
  refine ⟨by rw [htS]; norm_num, ?_⟩
  exact (summary_sorted_cumulative dfEx (·.customerId)).2.1 (by rw [htS]; norm_num)

/-- C5 (amended): the source computes the percentage columns with plain
float division and no zero guard, so a zero denominator produces the
platform's non-finite values, silently propagated into the summary: with
`totalNetSales = 0` every `pctOfSales` and `cumulativeSalesPct` cell is
non-finite (`NaN` or `±inf`), with `totalGrossMargin = 0` every
`cumulativeProfitPct` cell is non-finite, and a group with `netSales = 0`
gets a non-finite `marginPct`.  No defined finite sentinel is emitted. -/
theorem zero_denominators_nonfinite (df : List EnrichedRow) (key : EnrichedRow → String) :
    (total_net_sales df = 0 → ∀ r ∈ generate_summary df key,
      r.pctOfSales.isFinite = false ∧ r.cumulativeSalesPct.isFinite = false) ∧
    (total_gross_margin df key = 0 → ∀ r ∈ generate_summary df key,
      r.cumulativeProfitPct.isFinite = false) ∧
    (∀ r ∈ generate_summary df key, r.netSales = 0 → r.marginPct.isFinite = false) := by
  have hmem := buildRows_mem (total_net_sales df) (total_gross_margin df key)
    (summary_groups df key) 0 0
  refine ⟨?_, ?_, ?_⟩
  · intro h r hr
    unfold generate_summary at hr
    have h4 := hmem r hr
    rw [h] at h4
    exact ⟨by rw [h4.1]; exact div100_zero_den_not_finite _,
      by rw [h4.2.2.1]; exact div100_zero_den_not_finite _⟩
  · intro h r hr
    unfold generate_summary at hr
    have h4 := hmem r hr
    rw [h] at h4
    rw [h4.2.2.2]
    exact div100_zero_den_not_finite _
  · intro r hr hns
    unfold generate_summary at hr
    have h4 := hmem r hr
    rw [h4.2.1, hns]
    exact div100_zero_den_not_finite _

theorem zero_denominators_nonfinite_witness :
    total_net_sales dfZero = 0 ∧
    ∀ r ∈ generate_summary dfZero (·.customerId),
      r.pctOfSales.isFinite = false ∧ r.cumulativeSalesPct.isFinite = false := by
  have h0 : total_net_sales dfZero = 0 := by
    simp [total_net_sales, dfZero, merge_data, salesZero, costZero, matchesFor, enrichRow,
      fillna, resolveUnitCost, List.filter]
  exact ⟨h0, (zero_denominators_nonfinite dfZero (·.customerId)).1 h0⟩

/-- C6: when `totalNetSales` is nonzero the `pctOfSales` column of a summary
sums to exactly 100 (the embedding computes with exact rationals, so the
1e-6 float tolerance of the claim is met with equality). -/
theorem pct_of_sales_sums_to_100 (df : List EnrichedRow) (key : EnrichedRow → String)
    (h : total_net_sales df ≠ 0) :
    pfSum ((generate_summary df key).map (·.pctOfSales)) = PFloat.fin 100 := by
  unfold generate_summary
  rw [buildRows_map_pct]
  have hmap : (summary_groups df key).map (fun g => div100 g.netSales (total_net_sales df)) =
      (summary_groups df key).map
        (fun g => PFloat.fin (100 * g.netSales / total_net_sales df)) := by
    apply List.map_congr_left
    intro g _
    unfold div100
    rw [if_neg h]
  rw [hmap, pfSum_fin, sum_map_mul_div, summary_groups_netSales_sum, mul_div_assoc,
    div_self h, mul_one]

theorem pct_of_sales_sums_to_100_witness :
    total_net_sales dfEx ≠ 0 ∧
    pfSum ((generate_summary dfEx (·.customerId)).map (·.pctOfSales)) = PFloat.fin 100 := by
  have htS : total_net_sales dfEx = 12000 := by
    simp [total_net_sales, dfEx, merge_data, salesEx, costEx, matchesFor, enrichRow, fillna,
      resolveUnitCost, List.filter]
  have h : total_net_sales dfEx ≠ 0 := by rw [htS]; norm_num
  exact ⟨h, pct_of_sales_sums_to_100 dfEx (·.customerId) h⟩

theorem charListLE_trans (as : List Char) : ∀ bs cs, charListLE as bs = true →
    charListLE bs cs = true → charListLE as cs = true := by
  induction as with
  | nil => intro bs cs _ _; rfl
  | cons a as ih =>
    intro bs cs hab hbc
    cases bs with
    | nil => simp [charListLE] at hab
    | cons b bs =>
      cases cs with
      | nil => simp [charListLE] at hbc
      | cons c cs =>
        simp only [charListLE] at hab hbc ⊢
        by_cases h1 : a.val.toNat < b.val.toNat
        · by_cases h3 : b.val.toNat < c.val.toNat
          · have h5 : a.val.toNat < c.val.toNat := by omega
            simp [h5]
          · by_cases h4 : c.val.toNat < b.val.toNat
            · simp [h3, h4] at hbc
            · have h5 : a.val.toNat < c.val.toNat := by omega
              simp [h5]
        · by_cases h2 : b.val.toNat < a.val.toNat
          · simp [h1, h2] at hab
          · have htail : charListLE as bs = true := by simpa [h1, h2] using hab
            by_cases h3 : b.val.toNat < c.val.toNat
            · have h5 : a.val.toNat < c.val.toNat := by omega
              simp [h5]
            · by_cases h4 : c.val.toNat < b.val.toNat
              · simp [h3, h4] at hbc
              · have htail2 : charListLE bs cs = true := by simpa [h3, h4] using hbc
                have h5 : ¬a.val.toNat < c.val.toNat := by omega
                have h6 : ¬c.val.toNat < a.val.toNat := by omega
                simp only [h5, h6, if_false]
                exact ih bs cs htail htail2

theorem charListLE_total (as : List Char) : ∀ bs,
    (charListLE as bs || charListLE bs as) = true := by
  induction as with
  | nil => intro bs; simp [charListLE]
  | cons a as ih =>
    intro bs
    cases bs with
    | nil => simp [charListLE]
    | cons b bs =>
      simp only [charListLE, Bool.or_eq_true]
      by_cases h1 : a.val.toNat < b.val.toNat
      · left; simp [h1]
      · by_cases h2 : b.val.toNat < a.val.toNat
        · right; simp [h2]
        · have hih := ih bs
          rw [Bool.or_eq_true] at hih
          rcases hih with h | h
          · left; simp [h1, h2, h]
          · right; simp [h1, h2, h]

theorem strLE_trans (a b c : String) (hab : strLE a b = true) (hbc : strLE b c = true) :
    strLE a c = true :=
  charListLE_trans a.data b.data c.data hab hbc

theorem strLE_total (a b : String) : (strLE a b || strLE b a) = true :=
  charListLE_total a.data b.data

theorem groupTotals_keys_sorted (df : List EnrichedRow) (key : EnrichedRow → String) :
    (groupTotals df key).Pairwise (fun a b => strLE a.key b.key = true ∧ a.key ≠ b.key) := by
  unfold groupTotals
  rw [List.pairwise_map]
  have h1 : ((df.map key).dedup.mergeSort strLE).Pairwise (fun k1 k2 => strLE k1 k2 = true) :=
    List.sorted_mergeSort (fun a b c hab hbc => strLE_trans a b c hab hbc)
      (fun a b => strLE_total a b) _
  have h2 : ((df.map key).dedup.mergeSort strLE).Nodup :=
    ((df.map key).dedup.mergeSort_perm strLE).nodup_iff.mpr (List.nodup_dedup _)
  exact (h1.and h2).imp (fun hab => hab)

theorem pair_sublist_antisymm {α : Type} {l : List α} {a b : α} (hN : l.Nodup)
    (h1 : List.Sublist [a, b] l) (h2 : List.Sublist [b, a] l) : a = b := by
  induction l with
  | nil => simp at h1
  | cons x t ih =>
    rw [List.nodup_cons] at hN
    cases h1 with
    | cons _ h1q =>
      cases h2 with
      | cons _ h2q => exact ih hN.2 h1q h2q
      | cons₂ _ h2q =>
        exact absurd (h1q.subset (by simp)) hN.1
    | cons₂ _ h1q =>
      cases h2 with
      | cons _ h2q =>
        exact absurd (h2q.subset (by simp)) hN.1
      | cons₂ _ h2q => rfl

theorem mem_pair_sublist {α : Type} {l : List α} {a b : α} (ha : a ∈ l) (hb : b ∈ l)
    (hne : a ≠ b) : List.Sublist [a, b] l ∨ List.Sublist [b, a] l := by
  induction l with
  | nil => cases ha
  | cons x t ih =>
    rcases List.mem_cons.mp ha with rfl | haq
    · have hbq : b ∈ t := by
        rcases List.mem_cons.mp hb with h | h
        · exact absurd h.symm hne
        · exact h
      exact Or.inl (List.Sublist.cons₂ a (List.singleton_sublist.mpr hbq))
    · rcases List.mem_cons.mp hb with rfl | hbq
      · exact Or.inr (List.Sublist.cons₂ b (List.singleton_sublist.mpr haq))
      · rcases ih haq hbq with h | h
        · exact Or.inl (List.Sublist.cons x h)
        · exact Or.inr (List.Sublist.cons x h)

theorem sortByMarginDesc_tie_stable {gs : List Group}
    (hkey : gs.Pairwise (fun a b => strLE a.key b.key = true ∧ a.key ≠ b.key)) :
    (sortByMarginDesc gs).Pairwise (fun a b => a.grossMargin = b.grossMargin →
      (strLE a.key b.key = true ∧ a.key ≠ b.key)) := by
  have hgsN : gs.Nodup :=
    hkey.imp (fun hab => fun heq => hab.2 (congrArg Group.key heq))
  have htrans : ∀ a b c : Group, decide (b.grossMargin ≤ a.grossMargin) = true →
      decide (c.grossMargin ≤ b.grossMargin) = true →
      decide (c.grossMargin ≤ a.grossMargin) = true := by
    intro a b c hab hbc
    simp only [decide_eq_true_eq] at hab hbc ⊢
    linarith
  have htot : ∀ a b : Group, (decide (b.grossMargin ≤ a.grossMargin) ||
      decide (a.grossMargin ≤ b.grossMargin)) = true := by
    intro a b
    simp only [Bool.or_eq_true, decide_eq_true_eq]
    exact le_total _ _
  have hresN : (sortByMarginDesc gs).Nodup := (sortByMarginDesc_perm gs).nodup_iff.mpr hgsN
  rw [List.pairwise_iff_forall_sublist]
  intro a b hsub htie
  have hmemA : a ∈ gs := (sortByMarginDesc_perm gs).subset (hsub.subset (by simp))
  have hmemB : b ∈ gs := (sortByMarginDesc_perm gs).subset (hsub.subset (by simp))
  have hne : a ≠ b := by
    have h2 : [a, b].Nodup := hresN.sublist hsub
    simpa using (List.nodup_cons.mp h2).1
  rcases mem_pair_sublist hmemA hmemB hne with hord | hord
  · exact List.pairwise_iff_forall_sublist.mp hkey hord
  · exfalso
    have hpw : List.Pairwise
        (fun x y : Group => decide (y.grossMargin ≤ x.grossMargin) = true) [b, a] := by
      simp [htie]
    have hsub2 : List.Sublist [b, a] (sortByMarginDesc gs) :=
      List.sublist_mergeSort htrans htot hpw hord
    exact hne (pair_sublist_antisymm hresN hsub hsub2)

/-- C7 (amended): ties in `grossMargin` do not retain group-discovery order:
`groupby` lists the groups in ascending key order, and the stable descending
margin sort keeps that order for ties, so tied groups appear in ascending
`groupKey` order in the sorted summary regardless of the order in which the
input rows were iterated (the counterexample shows discovery order B, A
producing summary order A, B).  Tie order is modeled for the inputs where
numpy argsort is stable (stable kinds; quicksort falls back to stable
insertion sort below 16 elements). -/
theorem tie_break_key_order (df : List EnrichedRow) (key : EnrichedRow → String) :
    (generate_summary df key).Pairwise (fun a b => a.grossMargin = b.grossMargin →
      (strLE a.groupKey b.groupKey = true ∧ a.groupKey ≠ b.groupKey)) := by
  unfold generate_summary
  exact pairwise_transfer (fun r : SummaryRow => (r.groupKey, r.grossMargin))
    (fun g : Group => (g.key, g.grossMargin))
    (buildRows_map_pair (total_net_sales df) (total_gross_margin df key)
      (summary_groups df key) 0 0)
    (fun x y : String × ℚ => x.2 = y.2 → (strLE x.1 y.1 = true ∧ x.1 ≠ y.1))
    ((sortByMarginDesc_tie_stable (groupTotals_keys_sorted df key)).imp (fun hab => hab))

/-- C8: `get_top_bottom` returns the first `n` rows of a sorted copy of the
summary — descending by the chosen field for the top slice, ascending for
the bottom slice — each a permutation of the summary, with length
`min n (len summary)` (an `n` beyond the row count returns all rows), every
returned row being a row of the input summary, and the default `n` is 20;
the embedding is a pure function of the input, matching `sort_values`
returning a copy and leaving the input frame unchanged. -/
theorem top_bottom_selection (summary : List SummaryRow) (field : SummaryRow → ℚ) (n : Nat) :
    (get_top_bottom summary field n).1 = (sort_values_desc field summary).take n ∧
    (get_top_bottom summary field n).2 = (sort_values_asc field summary).take n ∧
    (sort_values_desc field summary).Perm summary ∧
    (sort_values_asc field summary).Perm summary ∧
    (sort_values_desc field summary).Pairwise (fun a b => field b ≤ field a) ∧
    (sort_values_asc field summary).Pairwise (fun a b => field a ≤ field b) ∧
    ((get_top_bottom summary field n).1).length = min n summary.length ∧
    ((get_top_bottom summary field n).2).length = min n summary.length ∧
    (∀ r ∈ (get_top_bottom summary field n).1, r ∈ summary) ∧
    (∀ r ∈ (get_top_bottom summary field n).2, r ∈ summary) ∧
    get_top_bottom summary field = get_top_bottom summary field 20 := by
  have hpermD : (sort_values_desc field summary).Perm summary := List.mergeSort_perm _ _
  have hpermA : (sort_values_asc field summary).Perm summary := List.mergeSort_perm _ _
  refine ⟨rfl, rfl, hpermD, hpermA, ?_, ?_, ?_, ?_, ?_, ?_, rfl⟩
  · exact (List.sorted_mergeSort
      (fun a b c hab hbc => by
        simp only [decide_eq_true_eq] at hab hbc ⊢
        linarith)
      (fun a b => by
        simp only [Bool.or_eq_true, decide_eq_true_eq]
        exact le_total _ _)
      summary).imp of_decide_eq_true
  · exact (List.sorted_mergeSort
      (fun a b c hab hbc => by
        simp only [decide_eq_true_eq] at hab hbc ⊢
        linarith)
      (fun a b => by
        simp only [Bool.or_eq_true, decide_eq_true_eq]
        exact le_total _ _)
      summary).imp of_decide_eq_true
  · show ((sort_values_desc field summary).take n).length = min n summary.length
    rw [List.length_take, hpermD.length_eq]
  · show ((sort_values_asc field summary).take n).length = min n summary.length
    rw [List.length_take, hpermA.length_eq]
  · intro r hr
    exact hpermD.subset (List.mem_of_mem_take hr)
  · intro r hr
    exact hpermA.subset (List.mem_of_mem_take hr)

end WhaleCurve
